import Mathlib

/-!
Verification of the ONNX-to-circuit node compiler in `src/onnx/onnxmodel.rs`.

The Rust source is shallowly embedded: `usize` becomes `Nat`, `i32` scales
become `Int` (all scale values in scope are tiny, so wrap-around is
irrelevant), `f32` magnitudes become the type `F32` below (exact rational
values plus a positive-infinity marker; `f32` rounding is ignored, which is
immaterial for every statement proved here), and fallible control flow is
made explicit by the outcome type `PassOutcome`, distinguishing ordinary
returns, typed errors (Rust `Err`/`?`), and process aborts (Rust
`assert`/`unwrap`/abort macros).
-/

namespace EzklOnnx

/-- The operator classification enum `OpKind` from the source. -/
inductive OpKind where
  | Affine
  | Convolution
  | ReLU
  | ReLU64
  | ReLU128
  | Sigmoid
  | Const
  | Input
  | Unknown
deriving DecidableEq, Repr

/-- A tensor as carried by the compiler metadata: a dims vector and flat data. -/
structure Tensor (α : Type) where
  dims : List Nat
  data : List α
deriving DecidableEq, Repr

/-- Model of the nonnegative `f32` magnitudes tracked in `output_max`:
an exact rational, or the positive-infinity default `f32::INFINITY`.
Arithmetic is exact (float rounding is not modelled) and infinity absorbs,
matching IEEE behaviour on the positive finite operands that occur here. -/
inductive F32 where
  | inf
  | fin (q : ℚ)
deriving DecidableEq, Repr

/-- Multiplication on `F32` magnitudes. On finite values this is exact
rational multiplication (written via `mkRat` so that it evaluates). -/
def F32.mul : F32 → F32 → F32
  | .fin a, .fin b => .fin (mkRat (a.num * b.num) (a.den * b.den))
  | _, _ => .inf

/-- Division of an `F32` magnitude by `128f32` (`output_max / 128f32`). -/
def F32.div128 : F32 → F32
  | .fin a => .fin (mkRat a.num (a.den * 128))
  | .inf => .inf

/-- Exact rational multiplication written via `mkRat` so that it evaluates
inside the kernel. -/
def qmul (a b : ℚ) : ℚ := mkRat (a.num * b.num) (a.den * b.den)

/-- Exact rational addition written via `mkRat` so that it evaluates inside
the kernel. -/
def qadd (a b : ℚ) : ℚ := mkRat (a.num * b.den + b.num * a.den) (a.den * b.den)

theorem qmul_eq (a b : ℚ) : qmul a b = a * b := by
  unfold qmul
  rw [Rat.mkRat_eq_div]
  push_cast
  rw [← div_mul_div_comm, Rat.num_div_den, Rat.num_div_den]

theorem qadd_eq (a b : ℚ) : qadd a b = a + b := by
  unfold qadd
  rw [Rat.mkRat_eq_div]
  push_cast
  conv_rhs => rw [← Rat.num_div_den a, ← Rat.num_div_den b]
  rw [div_add_div _ _ (by exact_mod_cast a.den_nz) (by exact_mod_cast b.den_nz)]
  ring_nf

theorem F32.mul_fin (a b : ℚ) : F32.mul (.fin a) (.fin b) = .fin (a * b) := by
  show F32.fin (mkRat (a.num * b.num) (a.den * b.den)) = F32.fin (a * b)
  rw [Rat.mkRat_eq_div]
  push_cast
  rw [← div_mul_div_comm, Rat.num_div_den, Rat.num_div_den]

theorem F32.div128_fin (a : ℚ) : F32.div128 (.fin a) = .fin (a / 128) := by
  show F32.fin (mkRat a.num (a.den * 128)) = F32.fin (a / 128)
  rw [Rat.mkRat_eq_div]
  push_cast
  rw [div_mul_eq_div_div, Rat.num_div_den]

/-- The size/bit-width pair handed to an elementwise circuit-builder
(`EltwiseConfig::configure(meta, [advices.get_slice(&[0..length], &[length])],
Some(&[self.bits]))`): the builders themselves are external, so the
configuration records exactly the data passed across that interface. -/
structure EltParams where
  length : Nat
  bits : Nat
deriving DecidableEq, Repr

/-- `OnnxNodeConfig`: one variant per operator kind, carrying the data passed
to the external per-operator circuit-builder. -/
inductive OnnxNodeConfig where
  | Affine (in_dim out_dim : Nat)
  | Conv (input_dims output_dims lhp : List Nat)
  | ReLU (p : EltParams)
  | ReLU64 (p : EltParams)
  | ReLU128 (p : EltParams)
  | Sigmoid (p : EltParams)
  | Const
  | Input
  | NotConfigured
deriving DecidableEq, Repr

/-- The cause attached to a process abort (a Rust assertion failure, `unwrap`
on `None`/`Err`, out-of-bounds index, or an explicit abort macro). -/
inductive PanicCause where
  | unwrapNone
  | unwrapErr
  | indexOOB
  | scaleMismatch (lhs rhs : Int)
  | notExpansion
  | notAConv
  | dataFormatMismatch
  | kernelFormatMismatch
  | paddingNotExplicit
  | subOverflow
  | divByZero
  | channelMismatch (lhs rhs : Nat)
  | configOpMismatch (k : OpKind) (c : OnnxNodeConfig)
  | unimplemented
deriving DecidableEq, Repr

/-- Outcome of running a piece of the compiler: a value, a typed error
returned to the caller (Rust `Err` propagated with `?`), or a process abort. -/
inductive PassOutcome (α : Type) where
  | ok : α → PassOutcome α
  | err : String → PassOutcome α
  | panic : PanicCause → PassOutcome α
deriving DecidableEq, Repr

instance : Monad PassOutcome where
  pure := PassOutcome.ok
  bind m f := match m with
    | .ok a => f a
    | .err e => .err e
    | .panic c => .panic c

def PassOutcome.map {α β : Type} (f : α → β) : PassOutcome α → PassOutcome β
  | .ok a => .ok (f a)
  | .err e => .err e
  | .panic c => .panic c

@[simp] theorem PassOutcome.bind_ok {α β : Type} (a : α) (f : α → PassOutcome β) :
    (PassOutcome.ok a >>= f) = f a := rfl

@[simp] theorem PassOutcome.bind_err {α β : Type} (e : String) (f : α → PassOutcome β) :
    (PassOutcome.err e >>= f) = PassOutcome.err e := rfl

@[simp] theorem PassOutcome.bind_panic {α β : Type} (c : PanicCause) (f : α → PassOutcome β) :
    (PassOutcome.panic c >>= f) = PassOutcome.panic c := rfl

@[simp] theorem PassOutcome.pure_eq {α : Type} (a : α) :
    (pure a : PassOutcome α) = PassOutcome.ok a := rfl

@[simp] theorem PassOutcome.map_ok {α β : Type} (f : α → β) (a : α) :
    PassOutcome.map f (.ok a) = .ok (f a) := rfl

/-- Vec/slice indexing (Rust `v[i]`, aborting when out of bounds). -/
def idx {α : Type} (l : List α) (i : Nat) : PassOutcome α :=
  match l[i]? with
  | some a => .ok a
  | none => .panic .indexOOB

/-- Rust `Option::unwrap`. -/
def unwrapO {α : Type} : Option α → PassOutcome α
  | some a => .ok a
  | none => .panic .unwrapNone

/-- Rust `assert_eq!` on two fixed-point scales. -/
def assert_eq_scale (a b : Int) : PassOutcome Unit :=
  if a = b then .ok () else .panic (.scaleMismatch a b)

/-- `usize` subtraction with the checked semantics of a debug build:
underflow aborts ("attempt to subtract with overflow"). -/
def usize_sub (a b : Nat) : PassOutcome Nat :=
  if b ≤ a then .ok (a - b) else .panic .subOverflow

/-- `usize` division: division by zero aborts in every build. -/
def usize_div (a b : Nat) : PassOutcome Nat :=
  if b = 0 then .panic .divByZero else .ok (a / b)

@[simp] theorem idx_cons_zero {α : Type} (a : α) (l : List α) : idx (a :: l) 0 = .ok a := by
  simp [idx]

@[simp] theorem idx_cons_succ {α : Type} (a : α) (l : List α) (n : Nat) :
    idx (a :: l) (n + 1) = idx l n := by
  simp [idx]

theorem idx_ok_of_getElem {α : Type} {l : List α} {i : Nat} {a : α} (h : l[i]? = some a) :
    idx l i = .ok a := by
  simp [idx, h]

theorem idx_lt_length {α : Type} {l : List α} {i : Nat} {a : α} (h : idx l i = .ok a) :
    i < l.length ∧ l[i]? = some a := by
  unfold idx at h
  cases hg : l[i]? with
  | none => rw [hg] at h; cases h
  | some b =>
    rw [hg] at h
    injection h with hba
    subst hba
    refine ⟨?_, rfl⟩
    by_contra hge
    push_neg at hge
    rw [List.getElem?_eq_none hge] at hg
    cases hg

def exceptDecEq {ε α : Type} [DecidableEq ε] [DecidableEq α] :
    (a b : Except ε α) → Decidable (a = b)
  | .ok x, .ok y =>
    match decEq x y with
    | isTrue h => isTrue (by rw [h])
    | isFalse h => isFalse (by intro hc; cases hc; exact h rfl)
  | .ok _, .error _ => isFalse (by intro hc; cases hc)
  | .error _, .ok _ => isFalse (by intro hc; cases hc)
  | .error x, .error y =>
    match decEq x y with
    | isTrue h => isTrue (by rw [h])
    | isFalse h => isFalse (by intro hc; cases hc; exact h rfl)

instance {ε α : Type} [DecidableEq ε] [DecidableEq α] : DecidableEq (Except ε α) :=
  exceptDecEq

/-- `tract_onnx::ops::nn::DataFormat` (only the distinction against `NCHW` matters). -/
inductive DataFormat where
  | NCHW
  | NHWC
  | CHW
  | HWC
deriving DecidableEq, Repr

/-- `tract KernelFormat` (only the distinction against `OIHW` matters). -/
inductive KernelFormat where
  | OIHW
  | HWIO
deriving DecidableEq, Repr

/-- `tract PaddingSpec`; `Explicit` carries the leading padding vector the
source reads (its other payload and the remaining policy variants are opaque). -/
inductive PaddingSpec where
  | Explicit (before after : List Nat)
  | Valid
  | SameUpper
  | SameLower
deriving DecidableEq, Repr

/-- The statically-declared attributes of a tract `Conv` operator. -/
structure ConvOp where
  data_format : DataFormat
  kernel_fmt : KernelFormat
  strides : Option (List Nat)
  padding : PaddingSpec
deriving DecidableEq, Repr

/-- Interface model of a raw tract graph node, as consumed by the compiler:
its operator-name string, its input outlet indices, and the queries the
compiler makes against the (external) tract shape/constant machinery.
Floats in the concretized constant are modelled as exact rationals. -/
structure RawNode where
  op_name : String
  inputs : List Nat
  /-- `node.outputs[0].fact.value.concretize()` viewed as an `f32` array. -/
  const_fact_value : Option (Tensor ℚ)
  /-- Result of `node_output_shapes(&node)` (slot-indexed optional shapes). -/
  node_output_shapes : Except String (List (Option (List Nat)))
  /-- Per-dimension `concretize()` of `node.outputs[0].fact.shape.dims()`. -/
  shape_dims_concrete : List (Option Nat)
  /-- `output.fact.shape.as_concrete_finite()` for each output slot, used by
  the `output_shapes()` method. -/
  as_concrete_finite : Except String (List (Option (List Nat)))
  /-- Downcast of the op: `none` if not a tract `Expansion`, `some none` if an
  `Expansion` that is not a `Conv`, else the `Conv` attributes. -/
  conv_op : Option (Option ConvOp)
deriving DecidableEq, Repr

/-- `OnnxNode`: the wrapped graph node plus the mutable inferred metadata
(opkind, output bound, fixed-point scales, shapes, widths). -/
structure OnnxNode where
  raw : RawNode
  opkind : OpKind
  output_max : F32
  min_advice_cols : Nat
  in_scale : Int
  out_scale : Int
  constant_value : Option (Tensor Int)
  input_shapes : Option (List (Option (List Nat)))
  output_shapes : Option (List (Option (List Nat)))
  in_dims : Option (List Nat)
  out_dims : Option (List Nat)
  layer_hyperparams : Option (List Nat)
deriving DecidableEq, Repr

/-- Rounding of an `f32` value to the nearest integer, computed on the exact
rational: `fdiv (2 num + den) (2 den)` is `floor (x + 1/2)`. The source rounds
ties away from zero while this rounds ties up; no statement here depends on
the tie direction. -/
def qround (x : ℚ) : Int := Int.fdiv (2 * x.num + x.den) (2 * x.den)

/-- Modelled from the spec: `ndarray_to_quantized` lives in
`src/onnx/utilities.rs`, which is not among the sources; per the spec a Const
is quantized "by multiplying by 2^7 and rounding to nearest integer", so the
model multiplies every element by `scale`, adds the (zero) `shift`, and rounds
to the nearest integer, keeping the dims. -/
def ndarray_to_quantized (arr : Tensor ℚ) (shift scale : ℚ) : Option (Tensor Int) :=
  some { dims := arr.dims,
         data := arr.data.map (fun x => qround (qadd (qmul x scale) shift)) }

/-- The classification table at the top of `OnnxNode::new`. -/
def opkind_of_name (s : String) : OpKind :=
  if s = "Gemm" then .Affine
  else if s = "Conv" then .Convolution
  else if s = "ConvHir" then .Convolution
  else if s = "Clip" then .ReLU
  else if s = "Sigmoid" then .Sigmoid
  else if s = "Const" then .Const
  else if s = "Source" then .Input
  else .Unknown

/-- `OnnxNode::new`: classify the node, then fill kind-specific metadata
(Const: quantize the folded value at scale 7; Input: resolve output dims and
fix scale 7 / bound 256; Convolution: check layout conventions and extract
padding and stride). All remaining kinds keep the defaults. -/
def OnnxNode.new (node : RawNode) : PassOutcome OnnxNode := do
  let opkind := opkind_of_name node.op_name
  let output_shapes : Option (List (Option (List Nat))) :=
    match node.node_output_shapes with
    | .ok s => some s
    | .error _ => none
  -- defaults, then refined per kind
  let base : OnnxNode :=
    { raw := node, opkind, output_max := .inf, min_advice_cols := 1,
      in_scale := 0, out_scale := 0, constant_value := none,
      input_shapes := none, output_shapes, in_dims := none, out_dims := none,
      layer_hyperparams := none }
  match opkind with
  | .Const => do
      let nav ← unwrapO node.const_fact_value
      let out_scale : Int := 7
      -- `i32::pow(2, out_scale as u32) as f32`
      let t ← unwrapO (ndarray_to_quantized nav 0 (((2 : Int) ^ (7 : Nat) : Int) : ℚ))
      let output_max ← match (t.data.map Int.natAbs).max? with
        | some m => pure (F32.fin (m : ℚ))
        | none => PassOutcome.panic .unwrapNone
      pure { base with out_scale, out_dims := some t.dims, output_max,
                       constant_value := some t }
  | .Input => do
      let out_dims ← match output_shapes with
        | some [some v] => pure (some v)
        | _ =>
          -- concretize each declared dimension; unresolved dims are dropped
          -- by the `flatten()` in the source
          pure (some (node.shape_dims_concrete.filterMap id))
      pure { base with out_dims, output_max := .fin 256, in_scale := 7, out_scale := 7 }
  | .Convolution => do
      let expansion ← match node.conv_op with
        | some e => pure e
        | none => PassOutcome.panic .notExpansion
      let conv_node ← match expansion with
        | some c => pure c
        | none => PassOutcome.panic .notAConv
      let _ ← if conv_node.data_format = .NCHW then pure ()
              else PassOutcome.panic .dataFormatMismatch
      let _ ← if conv_node.kernel_fmt = .OIHW then pure ()
              else PassOutcome.panic .kernelFormatMismatch
      let stride ← unwrapO conv_node.strides
      let padding ← match conv_node.padding with
        | .Explicit p _ => pure p
        | _ => PassOutcome.panic .paddingNotExplicit
      let p0 ← idx padding 0
      let p1 ← idx padding 1
      let s0 ← idx stride 0
      let s1 ← idx stride 1
      pure { base with layer_hyperparams := some [p0, p1, s0, s1] }
  | _ => pure base

/-- The `output_shapes()` method: per-slot `as_concrete_finite()?`, so a
failure is a typed error returned to the caller. -/
def OnnxNode.output_shapes_m (n : OnnxNode) : PassOutcome (List (Option (List Nat))) :=
  match n.raw.as_concrete_finite with
  | .ok s => .ok s
  | .error e => .err e

/-- `OnnxModel`: the raw graph nodes, the wrapped node list, the global
bit-width, and the scratch "last observed shape" cursor. -/
structure OnnxModel where
  model : List RawNode
  onnx_nodes : List OnnxNode
  bits : Nat
  last_shape : List Nat
deriving DecidableEq, Repr

/-- `extract_node_inputs` body: look each input outlet index up in the node
list (an out-of-range index aborts, as Vec indexing would). -/
def lookup_nodes (ns : List OnnxNode) : List Nat → PassOutcome (List OnnxNode)
  | [] => pure []
  | i :: rest => do
      let n ← idx ns i
      let others ← lookup_nodes ns rest
      pure (n :: others)

/-- `extract_node_inputs`: the predecessor nodes of `node`, in slot order
(activations, then weight, then bias for Affine/Convolution). -/
def extract_node_inputs (ns : List OnnxNode) (node : OnnxNode) : PassOutcome (List OnnxNode) :=
  lookup_nodes ns node.raw.inputs

/-- The fallible part of the `OpKind::Affine` arm (dimension lookups from the
weight's `out_dims` plus the two scale assertions), yielding
`(in_dim, out_dim)`. The infallible field computations live in
`affine_writes`; the split does not change which outcome is produced. -/
def affine_reads (input_node weight_node bias_node : OnnxNode) :
    PassOutcome (Nat × Nat) := do
  let wdims ← unwrapO weight_node.out_dims
  let in_dim ← idx wdims 1
  let out_dim ← idx wdims 0
  let _ ← assert_eq_scale input_node.out_scale weight_node.out_scale
  let _ ← assert_eq_scale input_node.out_scale bias_node.out_scale
  pure (in_dim, out_dim)

/-- The field writes of the `OpKind::Affine` arm. -/
def affine_writes (this_node input_node weight_node : OnnxNode)
    (in_dim out_dim : Nat) : OnnxNode :=
  { this_node with
    in_dims := some [in_dim], out_dims := some [out_dim],
    output_max := F32.mul (F32.mul input_node.output_max weight_node.output_max)
      (F32.fin (in_dim : ℚ)),
    in_scale := input_node.out_scale,
    out_scale := weight_node.out_scale + input_node.out_scale,
    min_advice_cols := max in_dim out_dim }

/-- The `OpKind::Affine` arm of `forward_shape_and_quantize_pass`, applied to
the node copy and its three predecessors. -/
def affine_step (this_node input_node weight_node bias_node : OnnxNode) :
    PassOutcome OnnxNode := do
  let p ← affine_reads input_node weight_node bias_node
  pure (affine_writes this_node input_node weight_node p.1 p.2)

/-- The values the `OpKind::Convolution` arm reads out of the weight's
`out_dims` (OIHW), the node's `layer_hyperparams`, and the activation
predecessor's `out_dims`. -/
structure ConvParams where
  out_channels : Nat
  in_channels : Nat
  kernel_height : Nat
  kernel_width : Nat
  padding_h : Nat
  padding_w : Nat
  stride_h : Nat
  stride_w : Nat
  in_dims : List Nat
  input_height : Nat
  input_width : Nat
  out_height : Nat
  out_width : Nat
deriving DecidableEq, Repr

/-- The fallible part of the `OpKind::Convolution` arm: all dimension and
hyperparameter lookups, then the per-axis output-size arithmetic
`(in + 2*pad - k) / stride + 1` with checked `usize` semantics (underflow or
a zero stride aborts, before any scale check, exactly as in the source where
lines 642-643 precede the assertions), then the two scale assertions. -/
def conv_reads (lhps : Option (List Nat)) (input_node weight_node bias_node : OnnxNode) :
    PassOutcome ConvParams := do
  let oihw ← unwrapO weight_node.out_dims
  let out_channels ← idx oihw 0
  let in_channels ← idx oihw 1
  let kernel_height ← idx oihw 2
  let kernel_width ← idx oihw 3
  let lhp ← unwrapO lhps
  let padding_h ← idx lhp 0
  let padding_w ← idx lhp 1
  let stride_h ← idx lhp 2
  let stride_w ← idx lhp 3
  let in_dims ← unwrapO input_node.out_dims
  let input_height ← idx in_dims 1
  let input_width ← idx in_dims 2
  let hdiff ← usize_sub (input_height + 2 * padding_h) kernel_height
  let hquot ← usize_div hdiff stride_h
  let out_height := hquot + 1
  let wdiff ← usize_sub (input_width + 2 * padding_w) kernel_width
  let wquot ← usize_div wdiff stride_w
  let out_width := wquot + 1
  let _ ← assert_eq_scale input_node.out_scale weight_node.out_scale
  let _ ← assert_eq_scale input_node.out_scale bias_node.out_scale
  pure { out_channels, in_channels, kernel_height, kernel_width,
         padding_h, padding_w, stride_h, stride_w, in_dims,
         input_height, input_width, out_height, out_width }

/-- The field writes of the `OpKind::Convolution` arm, using the output
sizes computed (before the assertions) by `conv_reads`. -/
def conv_writes (this_node input_node weight_node : OnnxNode) (p : ConvParams) :
    OnnxNode :=
  { this_node with
    in_dims := some p.in_dims,
    out_dims := some [p.out_channels, p.out_height, p.out_width],
    output_max := F32.mul (F32.mul input_node.output_max weight_node.output_max)
      (F32.fin ((p.kernel_height * p.kernel_width : Nat) : ℚ)),
    in_scale := input_node.out_scale,
    out_scale := weight_node.out_scale + input_node.out_scale,
    min_advice_cols :=
      max 1 (max (p.out_height * p.out_channels) (p.input_height * p.in_channels)) }

/-- The `OpKind::Convolution` arm of `forward_shape_and_quantize_pass`. -/
def conv_step (this_node input_node weight_node bias_node : OnnxNode) :
    PassOutcome OnnxNode := do
  let p ← conv_reads this_node.layer_hyperparams input_node weight_node bias_node
  pure (conv_writes this_node input_node weight_node p)

/-- The fallible part of the `OpKind::ReLU` arm: `in_dims.unwrap()[0]` for
`min_advice_cols`. -/
def relu_reads (input_node : OnnxNode) : PassOutcome Nat := do
  let d ← unwrapO input_node.out_dims
  let d0 ← idx d 0
  pure d0

/-- The field writes of the `OpKind::ReLU` arm: dims, shapes and bound pass
through from the single predecessor; the single `if in_scale == 14` block
reclassifies to the 128-rescale variant, divides the bound by 128 and lowers
the scale by 7 (on the other path `opkind` and `out_scale` are left as they
were). -/
def relu_writes (this_node input_node : OnnxNode) (d0 : Nat) : OnnxNode :=
  let in_scale := input_node.out_scale
  { this_node with
    in_dims := input_node.out_dims, out_dims := input_node.out_dims,
    input_shapes :=
      if this_node.input_shapes = none then some [input_node.out_dims]
      else this_node.input_shapes,
    output_shapes :=
      if this_node.output_shapes = none then some [input_node.out_dims]
      else this_node.output_shapes,
    in_scale,
    opkind := if in_scale = 14 then OpKind.ReLU128 else this_node.opkind,
    output_max :=
      if in_scale = 14 then F32.div128 input_node.output_max
      else input_node.output_max,
    out_scale := if in_scale = 14 then in_scale - 7 else this_node.out_scale,
    min_advice_cols := max 1 d0 }

/-- The `OpKind::ReLU` arm of `forward_shape_and_quantize_pass`. -/
def relu_step (this_node input_node : OnnxNode) : PassOutcome OnnxNode := do
  let d0 ← relu_reads input_node
  pure (relu_writes this_node input_node d0)

/-- One iteration of the `forward_shape_and_quantize_pass` loop: clone the
node at `node_idx`, update the copy according to its opkind (reading direct
predecessors), and return the updated copy. Kinds without an arm (`Const`,
`Input`, `Sigmoid`, the rescale variants, `Unknown`) fall through unchanged. -/
def compute_node (ns : List OnnxNode) (node_idx : Nat) : PassOutcome OnnxNode := do
  let this_node ← idx ns node_idx
  match this_node.opkind with
  | .Affine => do
      let inputs ← extract_node_inputs ns this_node
      let input_node ← idx inputs 0
      let weight_node ← idx inputs 1
      let bias_node ← idx inputs 2
      affine_step this_node input_node weight_node bias_node
  | .Convolution => do
      let inputs ← extract_node_inputs ns this_node
      let input_node ← idx inputs 0
      let weight_node ← idx inputs 1
      let bias_node ← idx inputs 2
      conv_step this_node input_node weight_node bias_node
  | .ReLU => do
      let inputs ← extract_node_inputs ns this_node
      let input_node ← idx inputs 0
      relu_step this_node input_node
  | _ => pure this_node

/-- `forward_shape_and_quantize_pass`, parameterized by the evaluation order:
process each node in order, swapping the updated copy back into the list. -/
def forward_shape_and_quantize_pass (ns : List OnnxNode) :
    List Nat → PassOutcome (List OnnxNode)
  | [] => .ok ns
  | i :: rest =>
    match compute_node ns i with
    | .ok v => forward_shape_and_quantize_pass (ns.set i v) rest
    | .err e => .err e
    | .panic c => .panic c

/-- `configure_node`: per-opkind circuit configuration. The external
builders are represented by the `OnnxNodeConfig` payloads recording exactly
the window sizes, hyperparameters, and bit-width passed to them; the scratch
`last_shape` cursor is updated by the Affine and Convolution arms and read by
the ReLU-family arms. -/
def configure_node (m : OnnxModel) (node_idx : Nat) :
    PassOutcome (OnnxModel × OnnxNodeConfig) := do
  let node ← idx m.onnx_nodes node_idx
  match node.opkind with
  | .Affine => do
      let ind ← unwrapO node.in_dims
      let in_dim ← idx ind 0
      let outd ← unwrapO node.out_dims
      let out_dim ← idx outd 0
      pure ({ m with last_shape := [out_dim] }, .Affine in_dim out_dim)
  | .Convolution => do
      let inputs ← extract_node_inputs m.onnx_nodes node
      let weight_node ← idx inputs 1
      let input_dims ← unwrapO node.in_dims
      let output_dims ← unwrapO node.out_dims
      let in_channels ← idx input_dims 0
      let out_channels ← idx output_dims 0
      let oihw ← unwrapO weight_node.out_dims
      let ker_o ← idx oihw 0
      let ker_i ← idx oihw 1
      let _ ← if ker_i = in_channels then pure ()
              else PassOutcome.panic (.channelMismatch ker_i in_channels)
      let _ ← if ker_o = out_channels then pure ()
              else PassOutcome.panic (.channelMismatch ker_o out_channels)
      let lhp ← unwrapO node.layer_hyperparams
      pure ({ m with last_shape := output_dims }, .Conv input_dims output_dims lhp)
  | .ReLU =>
      pure (m, .ReLU { length := m.last_shape.prod, bits := m.bits })
  | .ReLU64 =>
      pure (m, .ReLU64 { length := m.last_shape.prod, bits := m.bits })
  | .ReLU128 =>
      pure (m, .ReLU128 { length := m.last_shape.prod, bits := m.bits })
  | .Sigmoid => do
      let shapes ← match node.output_shapes_m with
        | .ok s => pure s
        | .err _ => PassOutcome.panic .unwrapErr
        | .panic c => PassOutcome.panic c
      let s0 ← idx shapes 0
      let v ← unwrapO s0
      let length ← idx v 1
      pure (m, .Sigmoid { length, bits := m.bits })
  | .Const => pure (m, .Const)
  | .Input => pure (m, .Input)
  | .Unknown => PassOutcome.panic .unimplemented

/-- Witness tensors threaded through layout, kept symbolic: the incoming
value, a constant pulled from a node, or the output of an external
per-operator layout routine applied to operands. -/
inductive ValT where
  | vinput
  | fromConst (t : Tensor Int)
  | applied (k : OpKind) (args : List ValT)
deriving Repr

/-- `layout_node`: dispatch on the pair (opkind, config variant). Matching
pairs pull their constants and invoke the operator's layout routine (or pass
the tensor through for Const/Input); any mismatched pair aborts with the
config/op mismatch cause. -/
def layout_node (m : OnnxModel) (node_idx : Nat) (input : ValT)
    (config : OnnxNodeConfig) : PassOutcome (Option ValT) := do
  let node ← idx m.onnx_nodes node_idx
  match node.opkind, config with
  | .Affine, .Affine _ _ => do
      let inputs ← extract_node_inputs m.onnx_nodes node
      let weight_node ← idx inputs 1
      let bias_node ← idx inputs 2
      let weight_value ← match weight_node.constant_value with
        | some t => pure t
        | none => PassOutcome.err "Tensor<i32> should already be loaded"
      let bias_value ← match bias_node.constant_value with
        | some t => pure t
        | none => PassOutcome.err "Tensor<i32> should already be loaded"
      pure (some (.applied .Affine [.fromConst weight_value, .fromConst bias_value, input]))
  | .Convolution, .Conv _ _ _ => do
      let inputs ← extract_node_inputs m.onnx_nodes node
      let weight_node ← idx inputs 1
      let bias_node ← idx inputs 2
      let weight_value ← match weight_node.constant_value with
        | some t => pure t
        | none => PassOutcome.err "Tensor<i32> should already be loaded"
      let bias_value ← match bias_node.constant_value with
        | some t => pure t
        | none => PassOutcome.err "Tensor<i32> should already be loaded"
      pure (some (.applied .Convolution [.fromConst weight_value, .fromConst bias_value, input]))
  | .ReLU, .ReLU _ => pure (some (.applied .ReLU [input]))
  | .ReLU64, .ReLU64 _ => pure (some (.applied .ReLU64 [input]))
  | .ReLU128, .ReLU128 _ => pure (some (.applied .ReLU128 [input]))
  | .Sigmoid, .Sigmoid _ => pure (some (.applied .Sigmoid [input]))
  | .Input, .Input => pure none
  | .Const, .Const => pure none
  | k, c => PassOutcome.panic (.configOpMismatch k c)

/-- Whether a config variant is the one produced for a given opkind: the
pairs `layout_node` accepts. -/
def configMatches : OpKind → OnnxNodeConfig → Bool
  | .Affine, .Affine _ _ => true
  | .Convolution, .Conv _ _ _ => true
  | .ReLU, .ReLU _ => true
  | .ReLU64, .ReLU64 _ => true
  | .ReLU128, .ReLU128 _ => true
  | .Sigmoid, .Sigmoid _ => true
  | .Input, .Input => true
  | .Const, .Const => true
  | _, _ => false

/-- Inner update of the `max_advices_width` loop for one slot's optional
shape: scan its dims, keeping each one that exceeds the running maximum. -/
def shape_max (a : Nat) : Option (List Nat) → Nat
  | none => a
  | some vs => vs.foldl (fun b v => if v > b then v else b) a

/-- The `max_advices_width` loop over the raw graph nodes, threading the
running maximum; a failing shape query is returned as a typed error (`?`). -/
def advices_width_go : List RawNode → Nat → PassOutcome Nat
  | [], acc => .ok acc
  | node :: rest, acc =>
    match node.node_output_shapes with
    | .ok shapes => advices_width_go rest (shapes.foldl shape_max acc)
    | .error e => .err e

/-- `max_advices_width`: fold over every raw graph node's output shapes
(propagating the typed shape error), taking the running maximum of all
concrete dimensions starting from 1, and add 5. -/
def max_advices_width (m : OnnxModel) : PassOutcome Nat := do
  let maxv ← advices_width_go m.model 1
  pure (maxv + 5)

/-- `max_fixeds_width` simply delegates to `max_advices_width`. -/
def max_fixeds_width (m : OnnxModel) : PassOutcome Nat :=
  max_advices_width m

/-- A raw-node stub for concrete examples: only the fields a given example
exercises matter. -/
def rawStub (s : String) (ins : List Nat) : RawNode :=
  { op_name := s, inputs := ins, const_fact_value := none,
    node_output_shapes := .error "unknown", shape_dims_concrete := [],
    as_concrete_finite := .error "unknown", conv_op := none }

/-- A finalized Input-like node with a given scale, bound, and dims. -/
def inputNode (sc : Int) (omax : F32) (dims : List Nat) : OnnxNode :=
  { raw := rawStub "Source" [], opkind := .Input, output_max := omax,
    min_advice_cols := 1, in_scale := sc, out_scale := sc, constant_value := none,
    input_shapes := none, output_shapes := none, in_dims := none,
    out_dims := some dims, layer_hyperparams := none }

/-- A freshly constructed ReLU node with the construction defaults. -/
def freshReLU (ins : List Nat) : OnnxNode :=
  { raw := rawStub "Clip" ins, opkind := .ReLU, output_max := .inf,
    min_advice_cols := 1, in_scale := 0, out_scale := 0, constant_value := none,
    input_shapes := none, output_shapes := none, in_dims := none,
    out_dims := none, layer_hyperparams := none }

def C1nodes : List OnnxNode := [inputNode 7 (.fin 256) [4], freshReLU [0]]

/-- Claim C1 (counterexample): on a ReLU node whose predecessor has
`out_scale = 7` (so `in_scale = 7 ≠ 14`), the pass keeps opkind ReLU and sets
`in_scale = 7`, but leaves `out_scale` at its prior default 0 instead of
setting it to `in_scale` as the claim states. -/
theorem C1_counterexample :
    PassOutcome.map (fun v => (v.opkind, v.in_scale, v.out_scale)) (compute_node C1nodes 1)
        = .ok (OpKind.ReLU, 7, 0)
    ∧ PassOutcome.map (fun v => (v.opkind, v.in_scale, v.out_scale)) (compute_node C1nodes 1)
        ≠ .ok (OpKind.ReLU, 7, 7) := by
  constructor <;> decide

/-- Claim C1 (amended): in the shape/quantization pass, a ReLU node is
reclassified to the 128-rescale variant iff its `in_scale` (the predecessor's
`out_scale`) equals 14; in that case `out_scale = in_scale - 7` and
`output_max` is the predecessor's bound divided by 128; for every other
`in_scale` the opkind stays plain ReLU and `out_scale` keeps its prior value
(the construction default 0) — it is not set to `in_scale`. -/
theorem C1_relu_rescale (ns : List OnnxNode) (i j d0 : Nat) (ds : List Nat)
    (node pred : OnnxNode)
    (hn : ns[i]? = some node) (hk : node.opkind = .ReLU)
    (hins : node.raw.inputs = [j]) (hj : ns[j]? = some pred)
    (hd : pred.out_dims = some (d0 :: ds)) :
    PassOutcome.map (fun v => v.opkind) (compute_node ns i)
        = .ok (if pred.out_scale = 14 then OpKind.ReLU128 else OpKind.ReLU)
    ∧ PassOutcome.map (fun v => v.in_scale) (compute_node ns i) = .ok pred.out_scale
    ∧ PassOutcome.map (fun v => v.out_scale) (compute_node ns i)
        = .ok (if pred.out_scale = 14 then pred.out_scale - 7 else node.out_scale)
    ∧ PassOutcome.map (fun v => v.output_max) (compute_node ns i)
        = .ok (if pred.out_scale = 14 then F32.div128 pred.output_max
               else pred.output_max) := by
  have h1 : idx ns i = .ok node := idx_ok_of_getElem hn
  have h2 : idx ns j = .ok pred := idx_ok_of_getElem hj
  by_cases hsc : pred.out_scale = 14 <;>
    simp [compute_node, h1, hk, extract_node_inputs, hins, lookup_nodes, h2,
          relu_step, relu_reads, relu_writes, hd, unwrapO, hsc]

def C1wNodes : List OnnxNode := [inputNode 14 (.fin 256) [4], freshReLU [0]]

/-- Witness for C1 at a concrete graph where the predecessor scale is 14,
forcing the 128-rescale reclassification. -/
theorem C1_relu_rescale_witness :
    PassOutcome.map (fun v => v.opkind) (compute_node C1wNodes 1) = .ok OpKind.ReLU128
    ∧ PassOutcome.map (fun v => v.in_scale) (compute_node C1wNodes 1) = .ok 14
    ∧ PassOutcome.map (fun v => v.out_scale) (compute_node C1wNodes 1) = .ok 7
    ∧ PassOutcome.map (fun v => v.output_max) (compute_node C1wNodes 1)
        = .ok (F32.div128 (F32.fin 256)) := by
  have h := C1_relu_rescale C1wNodes 1 0 4 [] (freshReLU [0])
    (inputNode 14 (.fin 256) [4]) (by decide) (by decide) (by decide) (by decide) (by decide)
  simpa [inputNode, freshReLU] using h

/-- A finalized Const-like node (weight or bias) with given scale, bound,
and dims. -/
def constNode (sc : Int) (omax : F32) (dims : List Nat) : OnnxNode :=
  { raw := rawStub "Const" [], opkind := .Const, output_max := omax,
    min_advice_cols := 1, in_scale := 0, out_scale := sc, constant_value := none,
    input_shapes := none, output_shapes := none, in_dims := none,
    out_dims := some dims, layer_hyperparams := none }

/-- A freshly constructed Convolution node with extracted hyperparams
`[pad_h, pad_w, stride_h, stride_w]`. -/
def freshConv (ins lhp : List Nat) : OnnxNode :=
  { raw := rawStub "Conv" ins, opkind := .Convolution, output_max := .inf,
    min_advice_cols := 1, in_scale := 0, out_scale := 0, constant_value := none,
    input_shapes := none, output_shapes := none, in_dims := none,
    out_dims := none, layer_hyperparams := some lhp }

def C2nodes : List OnnxNode :=
  [inputNode 7 (.fin 256) [1, 4, 4],
   constNode 7 (.fin 1) [1, 1, 2, 2],
   constNode 7 (.fin 1) [1],
   freshConv [0, 1, 2] [1, 1, 1, 1]]

/-- Claim C2 (counterexample): a Convolution with input 4x4, kernel 2x2,
padding 1 = k/2 and stride 1 yields output spatial size 5, not 4: with an
even kernel, `pad = k/2, stride = 1` does not give `out = in`. -/
theorem C2_counterexample :
    PassOutcome.map (fun v => v.out_dims) (compute_node C2nodes 3)
        = .ok (some [1, 5, 5])
    ∧ PassOutcome.map (fun v => v.out_dims) (compute_node C2nodes 3)
        ≠ .ok (some [1, 4, 4]) := by
  constructor <;> decide

/-- Claim C2 (amended): for a Convolution node, with input spatial size,
kernel size, padding and stride taken per axis from the weight predecessor's
`out_dims` and the node's `layer_hyperparams`, the computed output spatial
size is `(in + 2*pad - k) / stride + 1` on each axis, which equals the real
`floor((in + 2*pad - k)/stride) + 1` whenever `k ≤ in + 2*pad` and
`stride > 0`; in particular `pad = 0, stride = 1` gives `out = in - k + 1`,
and `pad = k/2, stride = 1` gives `out = in` for odd `k` (for even `k` it
gives `out = in + 1` instead). -/
theorem C2_conv_output_size (ns : List OnnxNode) (i a w b : Nat)
    (node input_node weight_node bias_node : OnnxNode)
    (oc ic kh kw ph pw sh sw c h wd : Nat)
    (hn : ns[i]? = some node) (hk : node.opkind = .Convolution)
    (hins : node.raw.inputs = [a, w, b])
    (ha : ns[a]? = some input_node) (hw : ns[w]? = some weight_node)
    (hb : ns[b]? = some bias_node)
    (hwd : weight_node.out_dims = some [oc, ic, kh, kw])
    (hlhp : node.layer_hyperparams = some [ph, pw, sh, sw])
    (hid : input_node.out_dims = some [c, h, wd])
    (hsc1 : input_node.out_scale = weight_node.out_scale)
    (hsc2 : input_node.out_scale = bias_node.out_scale)
    (hkh : kh ≤ h + 2 * ph) (hkw : kw ≤ wd + 2 * pw)
    (hsh : 0 < sh) (hsw : 0 < sw) :
    PassOutcome.map (fun v => v.out_dims) (compute_node ns i)
        = .ok (some [oc, (h + 2 * ph - kh) / sh + 1, (wd + 2 * pw - kw) / sw + 1])
    ∧ (((h + 2 * ph - kh) / sh + 1 : Nat) : Int)
        = ((h : Int) + 2 * ph - kh) / sh + 1
    ∧ (((wd + 2 * pw - kw) / sw + 1 : Nat) : Int)
        = ((wd : Int) + 2 * pw - kw) / sw + 1
    ∧ (ph = 0 → sh = 1 → (h + 2 * ph - kh) / sh + 1 = h - kh + 1)
    ∧ (kh % 2 = 1 → ph = kh / 2 → sh = 1 → (h + 2 * ph - kh) / sh + 1 = h)
    ∧ (kh % 2 = 0 → 0 < kh → ph = kh / 2 → sh = 1 → (h + 2 * ph - kh) / sh + 1 = h + 1) := by
  have h1 : idx ns i = .ok node := idx_ok_of_getElem hn
  have h2 : idx ns a = .ok input_node := idx_ok_of_getElem ha
  have h3 : idx ns w = .ok weight_node := idx_ok_of_getElem hw
  have h4 : idx ns b = .ok bias_node := idx_ok_of_getElem hb
  have ha1 : assert_eq_scale input_node.out_scale weight_node.out_scale = .ok () := by
    simp [assert_eq_scale, hsc1]
  have ha2 : assert_eq_scale input_node.out_scale bias_node.out_scale = .ok () := by
    simp [assert_eq_scale, hsc2]
  have hs1 : usize_sub (h + 2 * ph) kh = .ok (h + 2 * ph - kh) := by
    simp [usize_sub, hkh]
  have hs2 : usize_sub (wd + 2 * pw) kw = .ok (wd + 2 * pw - kw) := by
    simp [usize_sub, hkw]
  have hd1 : usize_div (h + 2 * ph - kh) sh = .ok ((h + 2 * ph - kh) / sh) := by
    simp [usize_div, Nat.pos_iff_ne_zero.mp hsh]
  have hd2 : usize_div (wd + 2 * pw - kw) sw = .ok ((wd + 2 * pw - kw) / sw) := by
    simp [usize_div, Nat.pos_iff_ne_zero.mp hsw]
  refine ⟨?_, ?_, ?_, ?_, ?_, ?_⟩
  · simp only [compute_node, h1, hk, extract_node_inputs, hins, lookup_nodes, h2, h3, h4,
          PassOutcome.bind_ok, PassOutcome.pure_eq, idx_cons_zero, idx_cons_succ,
          conv_step, conv_reads, conv_writes, hwd, hlhp, hid, unwrapO,
          hs1, hs2, hd1, hd2, ha1, ha2, PassOutcome.map_ok]
  · have hc : ((h + 2 * ph - kh : Nat) : Int) = (h : Int) + 2 * ph - kh := by omega
    rw [Nat.cast_add, Nat.cast_one, Int.ofNat_ediv, hc]
  · have hc : ((wd + 2 * pw - kw : Nat) : Int) = (wd : Int) + 2 * pw - kw := by omega
    rw [Nat.cast_add, Nat.cast_one, Int.ofNat_ediv, hc]
  · intro hp hs
    subst hp hs
    simp
  · intro hodd hp hs
    subst hs
    omega
  · intro heven hkpos hp hs
    subst hs
    omega

def C2wNodes : List OnnxNode :=
  [inputNode 7 (.fin 256) [3, 32, 32],
   constNode 7 (.fin 1) [8, 3, 3, 3],
   constNode 7 (.fin 1) [8],
   freshConv [0, 1, 2] [1, 1, 1, 1]]

/-- Witness for C2 at the spec's Scenario A: input [3,32,32], kernel
[8,3,3,3], stride [1,1], padding [1,1] gives output dims [8,32,32]. -/
theorem C2_conv_output_size_witness :
    PassOutcome.map (fun v => v.out_dims) (compute_node C2wNodes 3)
        = .ok (some [8, 32, 32]) := by
  have h := C2_conv_output_size C2wNodes 3 0 1 2
    (freshConv [0, 1, 2] [1, 1, 1, 1]) (inputNode 7 (.fin 256) [3, 32, 32])
    (constNode 7 (.fin 1) [8, 3, 3, 3]) (constNode 7 (.fin 1) [8])
    8 3 3 3 1 1 1 1 3 32 32
    (by decide) (by decide) (by decide) (by decide) (by decide) (by decide)
    (by decide) (by decide) (by decide) (by decide) (by decide)
    (by decide) (by decide) (by decide) (by decide)
  simpa using h.1

/-- A freshly constructed Affine node with the construction defaults. -/
def freshAffine (ins : List Nat) : OnnxNode :=
  { raw := rawStub "Gemm" ins, opkind := .Affine, output_max := .inf,
    min_advice_cols := 1, in_scale := 0, out_scale := 0, constant_value := none,
    input_shapes := none, output_shapes := none, in_dims := none,
    out_dims := none, layer_hyperparams := none }

def C3cNodes : List OnnxNode :=
  [inputNode 7 (.fin 256) [1, 4, 4],
   constNode 0 (.fin 1) [1, 1, 2, 2],
   constNode 7 (.fin 1) [1],
   freshConv [0, 1, 2] [0, 0, 0, 1]]

/-- Claim C3 (counterexample): a Convolution node whose activation and
weight predecessors carry `out_scale` 7 and 0 (two of the three differ) but
whose height stride is 0 aborts with the divide-by-zero failure of the
output-size arithmetic — which the source runs before the scale assertions —
so the pass does not fail with ScaleMismatch although two scales differ. -/
theorem C3_counterexample :
    compute_node C3cNodes 3 = .panic PanicCause.divByZero
    ∧ compute_node C3cNodes 3 ≠ .panic (PanicCause.scaleMismatch 7 0) := by
  constructor <;> decide

/-- Claim C3 (amended): for an Affine node (first conjunct) or a Convolution
node (second conjunct) with predecessors [activation, weight, bias], the
pass aborts with the scale-mismatch assertion iff at least two of the three
predecessor `out_scale`s differ; when all three agree it never raises that
failure and sets `in_scale` to the activation's `out_scale` and `out_scale`
to the weight's plus the activation's — provided, for Convolution, that the
output-size arithmetic the source runs before the assertions does not abort
first (per axis, the kernel does not exceed the padded input and the stride
is nonzero). -/
theorem C3_scale_mismatch_iff :
    (∀ (ns : List OnnxNode) (i a w b : Nat)
       (node input_node weight_node bias_node : OnnxNode) (wd0 wd1 : Nat)
       (wds : List Nat),
       ns[i]? = some node → node.opkind = .Affine →
       node.raw.inputs = [a, w, b] →
       ns[a]? = some input_node → ns[w]? = some weight_node →
       ns[b]? = some bias_node →
       weight_node.out_dims = some (wd0 :: wd1 :: wds) →
       (((∃ x y, compute_node ns i = .panic (.scaleMismatch x y)) ↔
          (input_node.out_scale ≠ weight_node.out_scale ∨
           input_node.out_scale ≠ bias_node.out_scale ∨
           weight_node.out_scale ≠ bias_node.out_scale))
        ∧ (input_node.out_scale = weight_node.out_scale →
           input_node.out_scale = bias_node.out_scale →
           PassOutcome.map (fun v => v.in_scale) (compute_node ns i)
               = .ok input_node.out_scale
           ∧ PassOutcome.map (fun v => v.out_scale) (compute_node ns i)
               = .ok (weight_node.out_scale + input_node.out_scale))))
    ∧ (∀ (ns : List OnnxNode) (i a w b : Nat)
       (node input_node weight_node bias_node : OnnxNode)
       (oc ic kh kw ph pw sh sw c h wd : Nat),
       ns[i]? = some node → node.opkind = .Convolution →
       node.raw.inputs = [a, w, b] →
       ns[a]? = some input_node → ns[w]? = some weight_node →
       ns[b]? = some bias_node →
       weight_node.out_dims = some [oc, ic, kh, kw] →
       node.layer_hyperparams = some [ph, pw, sh, sw] →
       input_node.out_dims = some [c, h, wd] →
       kh ≤ h + 2 * ph → kw ≤ wd + 2 * pw → 0 < sh → 0 < sw →
       (((∃ x y, compute_node ns i = .panic (.scaleMismatch x y)) ↔
          (input_node.out_scale ≠ weight_node.out_scale ∨
           input_node.out_scale ≠ bias_node.out_scale ∨
           weight_node.out_scale ≠ bias_node.out_scale))
        ∧ (input_node.out_scale = weight_node.out_scale →
           input_node.out_scale = bias_node.out_scale →
           PassOutcome.map (fun v => v.in_scale) (compute_node ns i)
               = .ok input_node.out_scale
           ∧ PassOutcome.map (fun v => v.out_scale) (compute_node ns i)
               = .ok (weight_node.out_scale + input_node.out_scale)))) := by
  constructor
  · intro ns i a w b node input_node weight_node bias_node wd0 wd1 wds
      hn hk hins ha hw hb hwd
    have h1 : idx ns i = .ok node := idx_ok_of_getElem hn
    have h2 : idx ns a = .ok input_node := idx_ok_of_getElem ha
    have h3 : idx ns w = .ok weight_node := idx_ok_of_getElem hw
    have h4 : idx ns b = .ok bias_node := idx_ok_of_getElem hb
    by_cases e1 : input_node.out_scale = weight_node.out_scale
    · by_cases e2 : input_node.out_scale = bias_node.out_scale
      · have e3 : weight_node.out_scale = bias_node.out_scale := e1 ▸ e2
        have hok : ∀ v, compute_node ns i = .ok v → True := fun _ _ => trivial
        constructor
        · simp only [compute_node, h1, hk, extract_node_inputs, hins, lookup_nodes,
            h2, h3, h4, PassOutcome.bind_ok, PassOutcome.pure_eq, idx_cons_zero,
            idx_cons_succ, affine_step, affine_reads, affine_writes, hwd, unwrapO, assert_eq_scale,
            if_pos e1, if_pos e2]
          constructor
          · rintro ⟨x, y, hxy⟩
            cases hxy
          · intro hcon
            rcases hcon with hc | hc | hc <;> exact absurd (by omega) hc
        · intro _ _
          simp only [compute_node, h1, hk, extract_node_inputs, hins, lookup_nodes,
            h2, h3, h4, PassOutcome.bind_ok, PassOutcome.pure_eq, idx_cons_zero,
            idx_cons_succ, affine_step, affine_reads, affine_writes, hwd, unwrapO, assert_eq_scale,
            if_pos e1, if_pos e2, PassOutcome.map_ok]
          constructor <;> trivial
      · constructor
        · simp only [compute_node, h1, hk, extract_node_inputs, hins, lookup_nodes,
            h2, h3, h4, PassOutcome.bind_ok, PassOutcome.pure_eq, idx_cons_zero,
            idx_cons_succ, affine_step, affine_reads, affine_writes, hwd, unwrapO, assert_eq_scale,
            if_pos e1, if_neg e2, PassOutcome.bind_panic]
          constructor
          · intro _; exact Or.inr (Or.inl e2)
          · intro _
            exact ⟨input_node.out_scale, bias_node.out_scale, rfl⟩
        · intro _ hc
          exact absurd hc e2
    · constructor
      · simp only [compute_node, h1, hk, extract_node_inputs, hins, lookup_nodes,
          h2, h3, h4, PassOutcome.bind_ok, PassOutcome.pure_eq, idx_cons_zero,
          idx_cons_succ, affine_step, affine_reads, affine_writes, hwd, unwrapO, assert_eq_scale,
          if_neg e1, PassOutcome.bind_panic]
        constructor
        · intro _; exact Or.inl e1
        · intro _
          exact ⟨input_node.out_scale, weight_node.out_scale, rfl⟩
      · intro hc
        exact absurd hc e1
  · intro ns i a w b node input_node weight_node bias_node oc ic kh kw ph pw sh sw c h wd
      hn hk hins ha hw hb hwd hlhp hid hkh hkw hsh hsw
    have h1 : idx ns i = .ok node := idx_ok_of_getElem hn
    have h2 : idx ns a = .ok input_node := idx_ok_of_getElem ha
    have h3 : idx ns w = .ok weight_node := idx_ok_of_getElem hw
    have h4 : idx ns b = .ok bias_node := idx_ok_of_getElem hb
    have hs1 : usize_sub (h + 2 * ph) kh = .ok (h + 2 * ph - kh) := by
      simp [usize_sub, hkh]
    have hs2 : usize_sub (wd + 2 * pw) kw = .ok (wd + 2 * pw - kw) := by
      simp [usize_sub, hkw]
    have hd1 : usize_div (h + 2 * ph - kh) sh = .ok ((h + 2 * ph - kh) / sh) := by
      simp [usize_div, Nat.pos_iff_ne_zero.mp hsh]
    have hd2 : usize_div (wd + 2 * pw - kw) sw = .ok ((wd + 2 * pw - kw) / sw) := by
      simp [usize_div, Nat.pos_iff_ne_zero.mp hsw]
    by_cases e1 : input_node.out_scale = weight_node.out_scale
    · by_cases e2 : input_node.out_scale = bias_node.out_scale
      · constructor
        · simp only [compute_node, h1, hk, extract_node_inputs, hins, lookup_nodes,
            h2, h3, h4, PassOutcome.bind_ok, PassOutcome.pure_eq, idx_cons_zero,
            idx_cons_succ, conv_step, conv_reads, conv_writes, hwd, hlhp, hid, unwrapO,
            hs1, hs2, hd1, hd2, assert_eq_scale,
            if_pos e1, if_pos e2]
          constructor
          · rintro ⟨x, y, hxy⟩
            cases hxy
          · intro hcon
            rcases hcon with hc | hc | hc <;> exact absurd (by omega) hc
        · intro _ _
          simp only [compute_node, h1, hk, extract_node_inputs, hins, lookup_nodes,
            h2, h3, h4, PassOutcome.bind_ok, PassOutcome.pure_eq, idx_cons_zero,
            idx_cons_succ, conv_step, conv_reads, conv_writes, hwd, hlhp, hid, unwrapO,
            hs1, hs2, hd1, hd2, assert_eq_scale,
            if_pos e1, if_pos e2, PassOutcome.map_ok]
          constructor <;> trivial
      · constructor
        · simp only [compute_node, h1, hk, extract_node_inputs, hins, lookup_nodes,
            h2, h3, h4, PassOutcome.bind_ok, PassOutcome.pure_eq, idx_cons_zero,
            idx_cons_succ, conv_step, conv_reads, conv_writes, hwd, hlhp, hid, unwrapO,
            hs1, hs2, hd1, hd2, assert_eq_scale,
            if_pos e1, if_neg e2, PassOutcome.bind_panic]
          constructor
          · intro _; exact Or.inr (Or.inl e2)
          · intro _
            exact ⟨input_node.out_scale, bias_node.out_scale, rfl⟩
        · intro _ hc
          exact absurd hc e2
    · constructor
      · simp only [compute_node, h1, hk, extract_node_inputs, hins, lookup_nodes,
          h2, h3, h4, PassOutcome.bind_ok, PassOutcome.pure_eq, idx_cons_zero,
          idx_cons_succ, conv_step, conv_reads, conv_writes, hwd, hlhp, hid, unwrapO,
            hs1, hs2, hd1, hd2, assert_eq_scale,
          if_neg e1, PassOutcome.bind_panic]
        constructor
        · intro _; exact Or.inl e1
        · intro _
          exact ⟨input_node.out_scale, weight_node.out_scale, rfl⟩
      · intro hc
        exact absurd hc e1

def C3wNodes : List OnnxNode :=
  [inputNode 7 (.fin 256) [4],
   constNode 7 (.fin 1) [3, 4],
   constNode 7 (.fin 1) [3],
   freshAffine [0, 1, 2]]

/-- Witness for C3 at a concrete Affine node whose three predecessors all
carry `out_scale = 7`: the pass succeeds with `in_scale = 7` and
`out_scale = 14`. -/
theorem C3_scale_mismatch_iff_witness :
    PassOutcome.map (fun v => v.in_scale) (compute_node C3wNodes 3) = .ok 7
    ∧ PassOutcome.map (fun v => v.out_scale) (compute_node C3wNodes 3) = .ok 14 := by
  have h := (C3_scale_mismatch_iff.1 C3wNodes 3 0 1 2
    (freshAffine [0, 1, 2]) (inputNode 7 (.fin 256) [4])
    (constNode 7 (.fin 1) [3, 4]) (constNode 7 (.fin 1) [3]) 3 4 []
    (by decide) (by decide) (by decide) (by decide) (by decide) (by decide)
    (by decide)).2 (by decide) (by decide)
  simpa [inputNode, constNode] using h

def C5sigmoid : OnnxNode :=
  { raw := { op_name := "Sigmoid", inputs := [0], const_fact_value := none,
             node_output_shapes := .error "unknown", shape_dims_concrete := [],
             as_concrete_finite := .ok [some [1, 5]], conv_op := none },
    opkind := .Sigmoid, output_max := .inf, min_advice_cols := 1,
    in_scale := 0, out_scale := 0, constant_value := none, input_shapes := none,
    output_shapes := none, in_dims := none, out_dims := none,
    layer_hyperparams := none }

def C5model : OnnxModel :=
  { model := [], onnx_nodes := [C5sigmoid], bits := 15, last_shape := [3] }

/-- Claim C5 (counterexample): configuring a Sigmoid node whose own output
shape fact is `[1,5]` while the scratch cursor holds `[3]` passes window
length 5 (from the node's own recomputed shape), not the cursor product 3:
the Sigmoid window is not sized by the last-observed output length. -/
theorem C5_counterexample :
    configure_node C5model 0
        = .ok (C5model, .Sigmoid { length := 5, bits := 15 })
    ∧ configure_node C5model 0
        ≠ .ok (C5model, .Sigmoid { length := C5model.last_shape.prod, bits := 15 }) := by
  constructor <;> decide

/-- Claim C5 (amended): during configuration, ReLU and both rescale variants
size their witness window by the product of the scratch cursor `last_shape`
and receive the global bit-width; a Sigmoid node instead sizes its window by
element 1 of its own first recomputed output shape (still receiving the
global bit-width); and the cursor is rewritten by every Affine configuration
(to `[out_dim]`) and every Convolution configuration (to the node's output
dims). -/
theorem C5_eltwise_configure :
    (∀ (m : OnnxModel) (i : Nat) (node : OnnxNode),
       m.onnx_nodes[i]? = some node → node.opkind = .ReLU →
       configure_node m i = .ok (m, .ReLU { length := m.last_shape.prod, bits := m.bits }))
    ∧ (∀ (m : OnnxModel) (i : Nat) (node : OnnxNode),
       m.onnx_nodes[i]? = some node → node.opkind = .ReLU64 →
       configure_node m i = .ok (m, .ReLU64 { length := m.last_shape.prod, bits := m.bits }))
    ∧ (∀ (m : OnnxModel) (i : Nat) (node : OnnxNode),
       m.onnx_nodes[i]? = some node → node.opkind = .ReLU128 →
       configure_node m i = .ok (m, .ReLU128 { length := m.last_shape.prod, bits := m.bits }))
    ∧ (∀ (m : OnnxModel) (i : Nat) (node : OnnxNode) (l0 l1 : Nat)
         (ls : List Nat) (srest : List (Option (List Nat))),
       m.onnx_nodes[i]? = some node → node.opkind = .Sigmoid →
       node.raw.as_concrete_finite = .ok (some (l0 :: l1 :: ls) :: srest) →
       configure_node m i = .ok (m, .Sigmoid { length := l1, bits := m.bits }))
    ∧ (∀ (m : OnnxModel) (i : Nat) (node : OnnxNode) (d0 e0 : Nat) (ds es : List Nat),
       m.onnx_nodes[i]? = some node → node.opkind = .Affine →
       node.in_dims = some (d0 :: ds) → node.out_dims = some (e0 :: es) →
       configure_node m i = .ok ({ m with last_shape := [e0] }, .Affine d0 e0))
    ∧ (∀ (m : OnnxModel) (i a w b : Nat)
         (node input_node weight_node bias_node : OnnxNode)
         (ic ih iw oc oh ow kh kw : Nat) (lhp : List Nat),
       m.onnx_nodes[i]? = some node → node.opkind = .Convolution →
       node.raw.inputs = [a, w, b] →
       m.onnx_nodes[a]? = some input_node → m.onnx_nodes[w]? = some weight_node →
       m.onnx_nodes[b]? = some bias_node →
       node.in_dims = some [ic, ih, iw] → node.out_dims = some [oc, oh, ow] →
       weight_node.out_dims = some [oc, ic, kh, kw] →
       node.layer_hyperparams = some lhp →
       configure_node m i
           = .ok ({ m with last_shape := [oc, oh, ow] }, .Conv [ic, ih, iw] [oc, oh, ow] lhp)) := by
  refine ⟨?_, ?_, ?_, ?_, ?_, ?_⟩
  · intro m i node hn hk
    simp [configure_node, idx_ok_of_getElem hn, hk]
  · intro m i node hn hk
    simp [configure_node, idx_ok_of_getElem hn, hk]
  · intro m i node hn hk
    simp [configure_node, idx_ok_of_getElem hn, hk]
  · intro m i node l0 l1 ls srest hn hk hs
    simp [configure_node, idx_ok_of_getElem hn, hk, OnnxNode.output_shapes_m, hs, unwrapO]
  · intro m i node d0 e0 ds es hn hk hd he
    simp [configure_node, idx_ok_of_getElem hn, hk, hd, he, unwrapO]
  · intro m i a w b node input_node weight_node bias_node ic ih iw oc oh ow kh kw lhp
      hn hk hins ha hw hb hid hod hwd hlhp
    have h1 : idx m.onnx_nodes i = .ok node := idx_ok_of_getElem hn
    have h2 : idx m.onnx_nodes a = .ok input_node := idx_ok_of_getElem ha
    have h3 : idx m.onnx_nodes w = .ok weight_node := idx_ok_of_getElem hw
    have h4 : idx m.onnx_nodes b = .ok bias_node := idx_ok_of_getElem hb
    simp [configure_node, h1, hk, extract_node_inputs, hins, lookup_nodes,
          h2, h3, h4, hid, hod, hwd, hlhp, unwrapO]

def C5wModel : OnnxModel :=
  { model := [], onnx_nodes := [freshReLU [0]], bits := 15, last_shape := [3] }

/-- Witness for C5: a ReLU node configured while the cursor holds `[3]`
receives window length 3 (the cursor product) and the global bit-width 15. -/
theorem C5_eltwise_configure_witness :
    configure_node C5wModel 0
        = .ok (C5wModel, .ReLU { length := 3, bits := 15 }) := by
  have h := C5_eltwise_configure.1 C5wModel 0 (freshReLU [0]) (by decide) (by decide)
  simpa [C5wModel] using h

/-- Claim C6: layout dispatch is on the pair (opkind, config variant). A pair
whose config variant does not match the node's opkind always aborts with the
config/op mismatch failure, and a run that returns a result only ever happens
on a matching pair — a mismatch never proceeds silently. -/
theorem C6_layout_dispatch :
    (∀ (m : OnnxModel) (i : Nat) (input : ValT) (config : OnnxNodeConfig)
       (node : OnnxNode) (r : Option ValT),
       m.onnx_nodes[i]? = some node →
       layout_node m i input config = .ok r →
       configMatches node.opkind config = true)
    ∧ (∀ (m : OnnxModel) (i : Nat) (input : ValT) (config : OnnxNodeConfig)
       (node : OnnxNode),
       m.onnx_nodes[i]? = some node →
       configMatches node.opkind config = false →
       layout_node m i input config = .panic (.configOpMismatch node.opkind config)) := by
  constructor
  · intro m i input config node r hn hok
    have h1 : idx m.onnx_nodes i = .ok node := idx_ok_of_getElem hn
    rw [layout_node, h1] at hok
    simp only [PassOutcome.bind_ok] at hok
    cases hk : node.opkind <;> rw [hk] at hok <;> cases config <;>
      simp_all [configMatches]
  · intro m i input config node hn hmis
    have h1 : idx m.onnx_nodes i = .ok node := idx_ok_of_getElem hn
    rw [layout_node, h1]
    simp only [PassOutcome.bind_ok]
    cases hk : node.opkind <;> rw [hk] at hmis <;> cases config <;>
      simp_all [configMatches]

def C6model : OnnxModel :=
  { model := [], onnx_nodes := [freshReLU [0]], bits := 15, last_shape := [3] }

/-- Witness for C6: handing a ReLU node the Const config variant aborts with
the config/op mismatch failure. -/
theorem C6_layout_dispatch_witness :
    layout_node C6model 0 ValT.vinput OnnxNodeConfig.Const
        = .panic (.configOpMismatch OpKind.ReLU OnnxNodeConfig.Const) :=
  C6_layout_dispatch.2 C6model 0 ValT.vinput OnnxNodeConfig.Const (freshReLU [0])
    (by decide) (by decide)

theorem compute_sigmoid_id {ns : List OnnxNode} {i : Nat} {node : OnnxNode}
    (hn : ns[i]? = some node) (hk : node.opkind = .Sigmoid) :
    compute_node ns i = .ok node := by
  simp [compute_node, idx_ok_of_getElem hn, hk]

/-- Claim C9: a node classified Sigmoid keeps the construction defaults
(`in_scale = out_scale = 0`, `output_max = +inf`) at `OnnxNode::new`, and the
shape/quantization pass never rewrites a Sigmoid node, so afterwards a
downstream Affine/Convolution consumer reading it as activation sees
`out_scale = 0` (not 7). -/
theorem C9_sigmoid_untouched :
    (∀ raw : RawNode, raw.op_name = "Sigmoid" →
       PassOutcome.map (fun n => (n.opkind, n.in_scale, n.out_scale, n.output_max))
           (OnnxNode.new raw)
         = .ok (OpKind.Sigmoid, 0, 0, F32.inf))
    ∧ (∀ (order : List Nat) (ns ns' : List OnnxNode) (i : Nat) (node : OnnxNode),
       forward_shape_and_quantize_pass ns order = .ok ns' →
       ns[i]? = some node → node.opkind = .Sigmoid →
       ns'[i]? = some node) := by
  constructor
  · intro raw h
    have hk : opkind_of_name raw.op_name = .Sigmoid := by rw [h]; rfl
    simp [OnnxNode.new, hk]
  · intro order
    induction order with
    | nil =>
      intro ns ns' i node h hn hk
      rw [forward_shape_and_quantize_pass] at h
      injection h with h
      subst h
      exact hn
    | cons j rest ih =>
      intro ns ns' i node h hn hk
      rw [forward_shape_and_quantize_pass] at h
      cases hc : compute_node ns j with
      | ok v =>
        rw [hc] at h
        by_cases hij : j = i
        · subst hij
          rw [compute_sigmoid_id hn hk] at hc
          injection hc with hc
          subst hc
          refine ih (ns.set j node) ns' j node h ?_ hk
          exact List.getElem?_set_eq_of_lt node (idx_lt_length (idx_ok_of_getElem hn)).1
        · refine ih (ns.set j v) ns' i node h ?_ hk
          rw [List.getElem?_set_ne (by omega)]
          exact hn
      | err e => rw [hc] at h; cases h
      | panic c => rw [hc] at h; cases h

def C9sig : OnnxNode :=
  { raw := rawStub "Sigmoid" [0], opkind := .Sigmoid, output_max := .inf,
    min_advice_cols := 1, in_scale := 0, out_scale := 0, constant_value := none,
    input_shapes := none, output_shapes := none, in_dims := none,
    out_dims := none, layer_hyperparams := none }

/-- Witness for C9: constructing a raw "Sigmoid" node yields the defaults,
and a pass over a one-node list leaves the Sigmoid node in place. -/
theorem C9_sigmoid_untouched_witness :
    PassOutcome.map (fun n => (n.opkind, n.in_scale, n.out_scale, n.output_max))
        (OnnxNode.new (rawStub "Sigmoid" [0]))
      = .ok (OpKind.Sigmoid, 0, 0, F32.inf)
    ∧ [C9sig][0]? = some C9sig := by
  refine ⟨C9_sigmoid_untouched.1 (rawStub "Sigmoid" [0]) (by decide), ?_⟩
  exact C9_sigmoid_untouched.2 [0] [C9sig] [C9sig] 0 C9sig (by decide) (by decide) (by decide)

/-- The quantization map a Const node applies to each float: multiply by
`2^7` and round to the nearest integer (spelled with the kernel-evaluating
rational operations used by the embedding). -/
@[reducible] def quant7 (x : ℚ) : Int :=
  qround (qadd (qmul x (((2 : Int) ^ (7 : Nat) : Int) : ℚ)) 0)

/-- Claim C4: constructing a Const node fixes `out_scale = 7`, quantizes the
concretized float array by multiplying by 2^7 and rounding to nearest
(`quant7`, which provably equals `x ↦ round (x * 2^7)` over the exact
rationals), records `out_dims` as the quantized tensor's dims, and sets
`output_max` to the maximum absolute value occurring in the quantized integer
tensor (an element of the tensor's absolute values that bounds all of them). -/
theorem C4_const_quantization (node : RawNode) (t : Tensor ℚ) (m : Nat)
    (hname : node.op_name = "Const")
    (hval : node.const_fact_value = some t)
    (hmax : ((t.data.map quant7).map Int.natAbs).max? = some m) :
    PassOutcome.map (fun n => n.out_scale) (OnnxNode.new node) = .ok 7
    ∧ PassOutcome.map (fun n => n.constant_value) (OnnxNode.new node)
        = .ok (some { dims := t.dims, data := t.data.map quant7 })
    ∧ (∀ x : ℚ, quant7 x = qround (x * 2 ^ (7 : Nat)))
    ∧ PassOutcome.map (fun n => n.out_dims) (OnnxNode.new node) = .ok (some t.dims)
    ∧ PassOutcome.map (fun n => n.output_max) (OnnxNode.new node) = .ok (.fin (m : ℚ))
    ∧ m ∈ (t.data.map quant7).map Int.natAbs
    ∧ (∀ y ∈ (t.data.map quant7).map Int.natAbs, y ≤ m) := by
  have hk : opkind_of_name node.op_name = .Const := by rw [hname]; rfl
  have hmem : m ∈ (t.data.map quant7).map Int.natAbs :=
    List.max?_mem (fun a b => max_choice a b) hmax
  have hle : ∀ y ∈ (t.data.map quant7).map Int.natAbs, y ≤ m :=
    (List.max?_le_iff (fun _ _ _ => Nat.max_le) hmax).1 (Nat.le_refl m)
  have hq : ∀ x : ℚ, quant7 x = qround (x * 2 ^ (7 : Nat)) := by
    intro x
    unfold quant7
    rw [qadd_eq, qmul_eq, add_zero]
    norm_num
  refine ⟨?_, ?_, hq, ?_, ?_, hmem, hle⟩
  all_goals simp only [OnnxNode.new, hk, hval, ndarray_to_quantized, unwrapO,
      PassOutcome.bind_ok, PassOutcome.pure_eq]
  all_goals rw [hmax]
  all_goals rfl

def C4tensor : Tensor ℚ := { dims := [2], data := [3, 2] }

/-- Witness for C4 on the concrete constant `[3, 2]`: quantization at scale
2^7 yields `[384, 256]` with maximum absolute value 384. -/
theorem C4_const_quantization_witness :
    PassOutcome.map (fun n => n.out_scale)
        (OnnxNode.new { rawStub "Const" [] with const_fact_value := some C4tensor })
      = .ok 7
    ∧ PassOutcome.map (fun n => n.output_max)
        (OnnxNode.new { rawStub "Const" [] with const_fact_value := some C4tensor })
      = .ok (.fin ((384 : Nat) : ℚ)) := by
  have h := C4_const_quantization
    { rawStub "Const" [] with const_fact_value := some C4tensor } C4tensor 384
    (by decide) (by decide) (by decide)
  exact ⟨h.1, h.2.2.2.2.1⟩

/-- The dims contributed by one output slot (none contributes nothing). -/
def sdims : Option (List Nat) → List Nat
  | none => []
  | some vs => vs

/-- All dims contributed by a node's slot-indexed shape list. -/
def shapes_dims : List (Option (List Nat)) → List Nat
  | [] => []
  | sh :: rest => sdims sh ++ shapes_dims rest

/-- Every concrete dimension appearing in any graph node's output shapes. -/
def gatherDims : List RawNode → List Nat
  | [] => []
  | n :: rest =>
    (match n.node_output_shapes with
     | .ok shapes => shapes_dims shapes
     | .error _ => []) ++ gatherDims rest

theorem shape_max_eq (a : Nat) (sh : Option (List Nat)) :
    shape_max a sh = (sdims sh).foldl max a := by
  have hf : (fun (b v : Nat) => if v > b then v else b) = max := by
    funext b v
    by_cases h : v > b <;> simp [h] <;> omega
  cases sh <;> simp [shape_max, sdims, hf]

theorem foldl_shape_max (s : List (Option (List Nat))) (acc : Nat) :
    s.foldl shape_max acc = (shapes_dims s).foldl max acc := by
  induction s generalizing acc with
  | nil => rfl
  | cons sh rest ih =>
    rw [List.foldl_cons, shapes_dims, List.foldl_append, ih, shape_max_eq]

theorem le_foldl_max (l : List Nat) (a : Nat) : a ≤ l.foldl max a := by
  induction l generalizing a with
  | nil => exact Nat.le_refl a
  | cons x xs ih =>
    rw [List.foldl_cons]
    exact Nat.le_trans (Nat.le_max_left a x) (ih (max a x))

theorem foldl_max_le_of_mem (l : List Nat) (a d : Nat) (hd : d ∈ l) :
    d ≤ l.foldl max a := by
  induction l generalizing a with
  | nil => cases hd
  | cons x xs ih =>
    rw [List.foldl_cons]
    rcases List.mem_cons.mp hd with h | h
    · subst h
      exact Nat.le_trans (Nat.le_max_right a d) (le_foldl_max xs (max a d))
    · exact ih (max a x) h

theorem foldl_max_mem_or (l : List Nat) (a : Nat) :
    l.foldl max a = a ∨ l.foldl max a ∈ l := by
  induction l generalizing a with
  | nil => exact Or.inl rfl
  | cons x xs ih =>
    rw [List.foldl_cons]
    rcases ih (max a x) with h | h
    · rcases Nat.le_total a x with hax | hxa
      · right
        rw [h, Nat.max_eq_right hax]
        exact List.mem_cons_self ..
      · left
        rw [h, Nat.max_eq_left hxa]
    · exact Or.inr (List.mem_cons_of_mem x h)

theorem advices_go_ok (l : List RawNode) (acc : Nat)
    (hok : ∀ n ∈ l, ∃ s, n.node_output_shapes = .ok s) :
    advices_width_go l acc = .ok ((gatherDims l).foldl max acc) := by
  induction l generalizing acc with
  | nil => rfl
  | cons n rest ih =>
    obtain ⟨s, hs⟩ := hok n (List.mem_cons_self ..)
    rw [advices_width_go, hs, gatherDims, hs]
    show advices_width_go rest (List.foldl shape_max acc s)
        = .ok (List.foldl max acc (shapes_dims s ++ gatherDims rest))
    rw [List.foldl_append,
        ih (List.foldl shape_max acc s) (fun x hx => hok x (List.mem_cons_of_mem n hx)),
        foldl_shape_max]

/-- Claim C10: under successful shape queries, `max_advices_width` returns
`M + 5` where `M` is the running maximum, starting from 1, of every concrete
dimension in any graph node's output shapes (so `M` bounds every such
dimension, is attained by one of them unless it is 1, and the result is at
least 6); and `max_fixeds_width` returns exactly the same value. -/
theorem C10_advices_width (m : OnnxModel)
    (hok : ∀ n ∈ m.model, ∃ s, n.node_output_shapes = .ok s) :
    max_advices_width m = .ok ((gatherDims m.model).foldl max 1 + 5)
    ∧ 1 ≤ (gatherDims m.model).foldl max 1
    ∧ (∀ d ∈ gatherDims m.model, d ≤ (gatherDims m.model).foldl max 1)
    ∧ ((gatherDims m.model).foldl max 1 = 1
        ∨ (gatherDims m.model).foldl max 1 ∈ gatherDims m.model)
    ∧ 6 ≤ (gatherDims m.model).foldl max 1 + 5
    ∧ max_fixeds_width m = max_advices_width m := by
  refine ⟨?_, le_foldl_max _ 1, fun d hd => foldl_max_le_of_mem _ 1 d hd,
          foldl_max_mem_or _ 1, ?_, rfl⟩
  · rw [max_advices_width, advices_go_ok m.model 1 hok]
    rfl
  · have := le_foldl_max (gatherDims m.model) 1
    omega

def C10model : OnnxModel :=
  { model := [{ rawStub "Source" [] with node_output_shapes := .ok [some [3, 4]] }],
    onnx_nodes := [], bits := 15, last_shape := [0] }

/-- Witness for C10: one graph node with output shape [3,4] gives
`max_advices_width = 4 + 5 = 9`, and `max_fixeds_width` agrees. -/
theorem C10_advices_width_witness :
    max_advices_width C10model = .ok 9
    ∧ max_fixeds_width C10model = max_advices_width C10model := by
  have h := C10_advices_width C10model
    (by intro n hn; simp [C10model, rawStub] at hn; exact ⟨[some [3, 4]], by rw [hn]⟩)
  refine ⟨?_, h.2.2.2.2.2⟩
  have h1 := h.1
  simpa [C10model, gatherDims, shapes_dims, sdims, rawStub] using h1

def C7nodes : List OnnxNode :=
  [inputNode 7 (.fin 256) [4],
   constNode 7 (.fin 1) [3, 4],
   constNode 0 (.fin 1) [3],
   freshAffine [0, 1, 2]]

/-- Claim C7 (counterexample): running the shape/quantization pass on an
Affine node whose bias predecessor carries `out_scale = 0` while activation
and weight carry 7 ends in a process abort (the assertion), not in a typed
error value returned to the caller. -/
theorem C7_counterexample :
    forward_shape_and_quantize_pass C7nodes [0, 1, 2, 3]
      = .panic (.scaleMismatch 7 0) := by
  decide

/-- Claim C7 (amended): each failure of the error taxonomy reached by this
code aborts the process (an `assert`/`unwrap`/abort macro, whose message
carries the offending details) instead of being returned as a typed error:
constant-concretization failure and the convolution layout/padding checks
abort inside `OnnxNode::new`, the scale-mismatch assertion aborts the
quantization pass, an unknown opkind aborts configuration, a failing Sigmoid
shape query aborts configuration via `unwrap`, and a config/op mismatch
aborts layout. -/
theorem C7_failures_abort :
    (∀ raw : RawNode, raw.op_name = "Const" → raw.const_fact_value = none →
       OnnxNode.new raw = .panic .unwrapNone)
    ∧ (∀ (raw : RawNode) (conv : ConvOp), raw.op_name = "Conv" →
       raw.conv_op = some (some conv) → conv.data_format = .NHWC →
       OnnxNode.new raw = .panic .dataFormatMismatch)
    ∧ (∀ (raw : RawNode) (conv : ConvOp) (st : List Nat), raw.op_name = "Conv" →
       raw.conv_op = some (some conv) → conv.data_format = .NCHW →
       conv.kernel_fmt = .OIHW → conv.strides = some st →
       conv.padding = .SameUpper →
       OnnxNode.new raw = .panic .paddingNotExplicit)
    ∧ (∀ (ns : List OnnxNode) (i a w b : Nat)
         (node input_node weight_node bias_node : OnnxNode) (wd0 wd1 : Nat)
         (wds : List Nat),
       ns[i]? = some node → node.opkind = .Affine →
       node.raw.inputs = [a, w, b] →
       ns[a]? = some input_node → ns[w]? = some weight_node →
       ns[b]? = some bias_node →
       weight_node.out_dims = some (wd0 :: wd1 :: wds) →
       input_node.out_scale ≠ weight_node.out_scale →
       compute_node ns i
         = .panic (.scaleMismatch input_node.out_scale weight_node.out_scale))
    ∧ (∀ (m : OnnxModel) (i : Nat) (node : OnnxNode),
       m.onnx_nodes[i]? = some node → node.opkind = .Unknown →
       configure_node m i = .panic .unimplemented)
    ∧ (∀ (m : OnnxModel) (i : Nat) (node : OnnxNode) (e : String),
       m.onnx_nodes[i]? = some node → node.opkind = .Sigmoid →
       node.raw.as_concrete_finite = .error e →
       configure_node m i = .panic .unwrapErr)
    ∧ (∀ (m : OnnxModel) (i : Nat) (input : ValT) (config : OnnxNodeConfig)
         (node : OnnxNode),
       m.onnx_nodes[i]? = some node →
       configMatches node.opkind config = false →
       layout_node m i input config
         = .panic (.configOpMismatch node.opkind config)) := by
  refine ⟨?_, ?_, ?_, ?_, ?_, ?_, ?_⟩
  · intro raw hname hnone
    have hk : opkind_of_name raw.op_name = .Const := by rw [hname]; rfl
    simp [OnnxNode.new, hk, hnone, unwrapO]
  · intro raw conv hname hconv hdf
    have hk : opkind_of_name raw.op_name = .Convolution := by rw [hname]; rfl
    simp [OnnxNode.new, hk, hconv, hdf]
  · intro raw conv st hname hconv hdf hkf hst hpad
    have hk : opkind_of_name raw.op_name = .Convolution := by rw [hname]; rfl
    simp [OnnxNode.new, hk, hconv, hdf, hkf, hst, hpad, unwrapO]
  · intro ns i a w b node input_node weight_node bias_node wd0 wd1 wds
      hn hkind hins ha hw hb hwd hne
    have h1 : idx ns i = .ok node := idx_ok_of_getElem hn
    have h2 : idx ns a = .ok input_node := idx_ok_of_getElem ha
    have h3 : idx ns w = .ok weight_node := idx_ok_of_getElem hw
    have h4 : idx ns b = .ok bias_node := idx_ok_of_getElem hb
    simp [compute_node, h1, hkind, extract_node_inputs, hins, lookup_nodes,
          h2, h3, h4, affine_step, affine_reads, affine_writes, hwd, unwrapO, assert_eq_scale, hne]
  · intro m i node hn hkind
    simp [configure_node, idx_ok_of_getElem hn, hkind]
  · intro m i node e hn hkind hs
    simp [configure_node, idx_ok_of_getElem hn, hkind, OnnxNode.output_shapes_m, hs]
  · intro m i input config node hn hmis
    have h1 : idx m.onnx_nodes i = .ok node := idx_ok_of_getElem hn
    rw [layout_node, h1]
    simp only [PassOutcome.bind_ok]
    cases hk : node.opkind <;> rw [hk] at hmis <;> cases config <;>
      simp_all [configMatches]

/-- Witness for C7: a Const node whose value does not concretize aborts
`OnnxNode::new` with the `unwrap` failure. -/
theorem C7_failures_abort_witness :
    OnnxNode.new (rawStub "Const" []) = .panic .unwrapNone :=
  C7_failures_abort.1 (rawStub "Const" []) (by decide) (by decide)

theorem bind_ok_inv {α β : Type} {m : PassOutcome α} {f : α → PassOutcome β} {v : β}
    (h : (m >>= f) = .ok v) : ∃ a, m = .ok a ∧ f a = .ok v := by
  cases m with
  | ok a => exact ⟨a, rfl, h⟩
  | err e => simp at h
  | panic c => simp at h

theorem lookup_nodes_congr (ns ms : List OnnxNode) (js : List Nat)
    (h : ∀ j ∈ js, ns[j]? = ms[j]?) :
    lookup_nodes ns js = lookup_nodes ms js := by
  induction js with
  | nil => rfl
  | cons j rest ih =>
    rw [lookup_nodes, lookup_nodes]
    have hj : idx ns j = idx ms j := by
      unfold idx
      rw [h j (List.mem_cons_self ..)]
    rw [hj, ih (fun x hx => h x (List.mem_cons_of_mem j hx))]

/-- Inversion of one quantization-pass step: a successful `compute_node`
either took the Affine, Convolution or ReLU arm (with all its reads
succeeding and the node rewritten by the corresponding writes), or took the
default arm and returned the node unchanged. -/
theorem compute_node_inv {ns : List OnnxNode} {i : Nat} {node v : OnnxNode}
    (hn : ns[i]? = some node) (h : compute_node ns i = .ok v) :
    (node.opkind = .Affine ∧ ∃ P i0 i1 i2 p,
        extract_node_inputs ns node = .ok P ∧ idx P 0 = .ok i0 ∧
        idx P 1 = .ok i1 ∧ idx P 2 = .ok i2 ∧
        affine_reads i0 i1 i2 = .ok p ∧ v = affine_writes node i0 i1 p.1 p.2)
    ∨ (node.opkind = .Convolution ∧ ∃ P i0 i1 i2 p,
        extract_node_inputs ns node = .ok P ∧ idx P 0 = .ok i0 ∧
        idx P 1 = .ok i1 ∧ idx P 2 = .ok i2 ∧
        conv_reads node.layer_hyperparams i0 i1 i2 = .ok p ∧
        v = conv_writes node i0 i1 p)
    ∨ (node.opkind = .ReLU ∧ ∃ P i0 d0,
        extract_node_inputs ns node = .ok P ∧ idx P 0 = .ok i0 ∧
        relu_reads i0 = .ok d0 ∧ v = relu_writes node i0 d0)
    ∨ (node.opkind ≠ .Affine ∧ node.opkind ≠ .Convolution ∧ node.opkind ≠ .ReLU
        ∧ v = node) := by
  rw [compute_node, idx_ok_of_getElem hn] at h
  simp only [PassOutcome.bind_ok] at h
  cases hk : node.opkind <;> rw [hk] at h
  case Affine =>
    left
    obtain ⟨P, hP, h⟩ := bind_ok_inv h
    obtain ⟨i0, h0, h⟩ := bind_ok_inv h
    obtain ⟨i1, h1, h⟩ := bind_ok_inv h
    obtain ⟨i2, h2, h⟩ := bind_ok_inv h
    rw [affine_step] at h
    obtain ⟨p, hp, h⟩ := bind_ok_inv h
    refine ⟨rfl, P, i0, i1, i2, p, hP, h0, h1, h2, hp, ?_⟩
    simpa using h.symm
  case Convolution =>
    right; left
    obtain ⟨P, hP, h⟩ := bind_ok_inv h
    obtain ⟨i0, h0, h⟩ := bind_ok_inv h
    obtain ⟨i1, h1, h⟩ := bind_ok_inv h
    obtain ⟨i2, h2, h⟩ := bind_ok_inv h
    rw [conv_step] at h
    obtain ⟨p, hp, h⟩ := bind_ok_inv h
    refine ⟨rfl, P, i0, i1, i2, p, hP, h0, h1, h2, hp, ?_⟩
    simpa using h.symm
  case ReLU =>
    right; right; left
    obtain ⟨P, hP, h⟩ := bind_ok_inv h
    obtain ⟨i0, h0, h⟩ := bind_ok_inv h
    rw [relu_step] at h
    obtain ⟨d0, hd, h⟩ := bind_ok_inv h
    refine ⟨rfl, P, i0, d0, hP, h0, hd, ?_⟩
    simpa using h.symm
  all_goals
    right; right; right
    refine ⟨by simp [hk], by simp [hk], by simp [hk], ?_⟩
    simpa using h.symm

/-- A successful `compute_node` step never changes the wrapped raw node. -/
theorem compute_node_raw {ns : List OnnxNode} {i : Nat} {node v : OnnxNode}
    (hn : ns[i]? = some node) (h : compute_node ns i = .ok v) :
    v.raw = node.raw := by
  rcases compute_node_inv hn h with
    ⟨_, _, _, _, _, _, _, _, _, _, _, hv⟩ |
    ⟨_, _, _, _, _, _, _, _, _, _, _, hv⟩ |
    ⟨_, _, _, _, _, _, _, hv⟩ | ⟨_, _, _, hv⟩ <;>
    subst hv <;> rfl

theorem relu_writes_idem (x inp : OnnxNode) (d0 : Nat) (h14 : inp.out_scale ≠ 14) :
    relu_writes (relu_writes x inp d0) inp d0 = relu_writes x inp d0 := by
  by_cases h1 : x.input_shapes = none <;> by_cases h2 : x.output_shapes = none <;>
    simp [relu_writes, h14, h1, h2]

/-- `compute_node` only looks at the node at `i` and at its direct
predecessors, so two node lists agreeing there produce the same step. -/
theorem compute_node_congr (ns ms : List OnnxNode) (i : Nat) (node : OnnxNode)
    (hn : ns[i]? = some node) (hm : ms[i]? = some node)
    (hpred : ∀ j ∈ node.raw.inputs, ns[j]? = ms[j]?) :
    compute_node ns i = compute_node ms i := by
  rw [compute_node, compute_node, idx_ok_of_getElem hn, idx_ok_of_getElem hm]
  simp only [PassOutcome.bind_ok]
  have hex : extract_node_inputs ns node = extract_node_inputs ms node :=
    lookup_nodes_congr ns ms node.raw.inputs hpred
  cases node.opkind <;> simp only [hex]

/-- Re-running one quantization step on its own output (with the
predecessors unchanged) reproduces that output: the per-node step is
idempotent given finalized predecessors. -/
theorem compute_node_fixpoint {ns : List OnnxNode} {i : Nat} {node v : OnnxNode}
    (hn : ns[i]? = some node) (h : compute_node ns i = .ok v)
    (hself : ∀ j ∈ node.raw.inputs, j ≠ i) :
    compute_node (ns.set i v) i = .ok v := by
  have hi : i < ns.length := (idx_lt_length (idx_ok_of_getElem hn)).1
  have hvset : (ns.set i v)[i]? = some v := List.getElem?_set_eq_of_lt v hi
  have hraw : v.raw = node.raw := compute_node_raw hn h
  have hpred : ∀ j ∈ node.raw.inputs, (ns.set i v)[j]? = ns[j]? := by
    intro j hj
    exact List.getElem?_set_ne ((hself j hj).symm)
  have hex : extract_node_inputs (ns.set i v) v = extract_node_inputs ns node := by
    unfold extract_node_inputs
    rw [hraw]
    exact lookup_nodes_congr _ _ _ hpred
  rcases compute_node_inv hn h with
      ⟨hk, P, i0, i1, i2, p, hP, h0, h1, h2, hp, hv⟩ |
      ⟨hk, P, i0, i1, i2, p, hP, h0, h1, h2, hp, hv⟩ |
      ⟨hk, P, i0, d0, hP, h0, hd, hv⟩ | ⟨hk1, hk2, hk3, hv⟩
  · have hvk : v.opkind = OpKind.Affine := by rw [hv]; exact hk
    rw [compute_node, idx_ok_of_getElem hvset]
    simp only [PassOutcome.bind_ok, hvk]
    simp only [hex, hP, PassOutcome.bind_ok, h0, h1, h2]
    simp only [affine_step, hp, PassOutcome.bind_ok, PassOutcome.pure_eq]
    rw [hv]
    rfl
  · have hvk : v.opkind = OpKind.Convolution := by rw [hv]; exact hk
    have hlhp : v.layer_hyperparams = node.layer_hyperparams := by rw [hv]; rfl
    rw [compute_node, idx_ok_of_getElem hvset]
    simp only [PassOutcome.bind_ok, hvk]
    simp only [hex, hP, PassOutcome.bind_ok, h0, h1, h2]
    simp only [conv_step, hlhp, hp, PassOutcome.bind_ok, PassOutcome.pure_eq]
    rw [hv]
    rfl
  · by_cases h14 : i0.out_scale = 14
    · have hvk : v.opkind = OpKind.ReLU128 := by
        rw [hv]
        simp [relu_writes, h14]
      rw [compute_node, idx_ok_of_getElem hvset]
      simp only [PassOutcome.bind_ok, hvk]
      rfl
    · have hvk : v.opkind = OpKind.ReLU := by
        rw [hv]
        simp [relu_writes, h14, hk]
      rw [compute_node, idx_ok_of_getElem hvset]
      simp only [PassOutcome.bind_ok, hvk]
      simp only [hex, hP, PassOutcome.bind_ok, h0]
      simp only [relu_step, hd, PassOutcome.bind_ok, PassOutcome.pure_eq]
      rw [hv, relu_writes_idem node i0 d0 h14]
  · subst hv
    rw [compute_node, idx_ok_of_getElem hvset]
    simp only [PassOutcome.bind_ok]
    cases hk : v.opkind
    case Affine => exact absurd hk hk1
    case Convolution => exact absurd hk hk2
    case ReLU => exact absurd hk hk3
    all_goals rfl

theorem set_self_of_getElem {α : Type} (l : List α) (i : Nat) (a : α)
    (h : l[i]? = some a) : l.set i a = l := by
  induction l generalizing i with
  | nil => simp at h
  | cons x xs ih =>
    cases i with
    | zero =>
      simp at h
      simp [List.set, h]
    | succ n =>
      simp at h
      simp [List.set, ih n h]

theorem compute_node_ok_lookup {ns : List OnnxNode} {i : Nat} {v : OnnxNode}
    (h : compute_node ns i = .ok v) : ∃ node, ns[i]? = some node := by
  cases hg : ns[i]? with
  | some n => exact ⟨n, rfl⟩
  | none => simp [compute_node, idx, hg] at h

/-- Indices the pass never processes keep their node untouched. -/
theorem pass_getElem_not_mem {order : List Nat} {ns ns' : List OnnxNode} {i : Nat}
    (h : forward_shape_and_quantize_pass ns order = .ok ns') (hni : i ∉ order) :
    ns'[i]? = ns[i]? := by
  induction order generalizing ns with
  | nil =>
    rw [forward_shape_and_quantize_pass] at h
    injection h with h
    subst h
    rfl
  | cons j rest ih =>
    rw [forward_shape_and_quantize_pass] at h
    cases hc : compute_node ns j with
    | ok v =>
      rw [hc] at h
      have hij : j ≠ i := fun he => hni (he ▸ List.mem_cons_self ..)
      rw [ih h (fun hm => hni (List.mem_cons_of_mem j hm))]
      exact List.getElem?_set_ne hij
    | err e => rw [hc] at h; cases h
    | panic c => rw [hc] at h; cases h

/-- The input outlet indices of the node stored at an index (empty when the
index is out of range). -/
def inputs_of (ns : List OnnxNode) (i : Nat) : List Nat :=
  match ns[i]? with
  | some n => n.raw.inputs
  | none => []

/-- The order hypothesis of the idempotence claim: at every position of the
evaluation order, none of that node's predecessors is processed at that
position or later (they are finalized strictly earlier, or never touched). -/
def PredsBefore (ns : List OnnxNode) : List Nat → Prop
  | [] => True
  | i :: rest => (∀ j ∈ inputs_of ns i, j ∉ (i :: rest)) ∧ PredsBefore ns rest

instance instDecPredsBefore (ns : List OnnxNode) :
    (order : List Nat) → Decidable (PredsBefore ns order)
  | [] => isTrue trivial
  | i :: rest =>
    have h2 : Decidable (PredsBefore ns rest) := instDecPredsBefore ns rest
    decidable_of_iff ((∀ j ∈ inputs_of ns i, j ∉ (i :: rest)) ∧ PredsBefore ns rest)
      Iff.rfl

theorem PredsBefore_congr {ns ms : List OnnxNode} (order : List Nat)
    (h : ∀ j, inputs_of ns j = inputs_of ms j)
    (hp : PredsBefore ns order) : PredsBefore ms order := by
  induction order with
  | nil => trivial
  | cons i rest ih =>
    obtain ⟨h1, h2⟩ := hp
    exact ⟨by rw [← h i]; exact h1, ih h2⟩

theorem inputs_of_set {ns : List OnnxNode} {i : Nat} {node v : OnnxNode}
    (hn : ns[i]? = some node) (hraw : v.raw = node.raw) :
    ∀ j, inputs_of (ns.set i v) j = inputs_of ns j := by
  intro j
  by_cases hij : i = j
  · subst hij
    have hi : i < ns.length := (idx_lt_length (idx_ok_of_getElem hn)).1
    unfold inputs_of
    rw [List.getElem?_set_eq_of_lt v hi, hn]
    show v.raw.inputs = node.raw.inputs
    rw [hraw]
  · unfold inputs_of
    rw [List.getElem?_set_ne hij]

/-- Claim C8: running the shape/quantization pass a second time over a node
list already finalized by a successful first run, with the same
duplicate-free order whose predecessors are all processed strictly earlier
(a topological order), reproduces the first run's node list exactly — every
node's metadata is unchanged. -/
theorem C8_pass_idempotent (order : List Nat) (ns ns' : List OnnxNode)
    (h : forward_shape_and_quantize_pass ns order = .ok ns')
    (hnd : order.Nodup)
    (hpb : PredsBefore ns order) :
    forward_shape_and_quantize_pass ns' order = .ok ns' := by
  induction order generalizing ns with
  | nil =>
    rw [forward_shape_and_quantize_pass] at h
    injection h with h
    subst h
    rfl
  | cons i rest ih =>
    rw [forward_shape_and_quantize_pass] at h
    cases hc : compute_node ns i with
    | err e => rw [hc] at h; cases h
    | panic c => rw [hc] at h; cases h
    | ok v =>
      rw [hc] at h
      obtain ⟨hnotin, hndr⟩ := List.nodup_cons.mp hnd
      obtain ⟨hpb1, hpbr⟩ := hpb
      obtain ⟨node, hn⟩ := compute_node_ok_lookup hc
      have hio : inputs_of ns i = node.raw.inputs := by
        unfold inputs_of
        rw [hn]
      have hpb1' : ∀ j ∈ node.raw.inputs, j ∉ (i :: rest) := by
        rw [← hio]
        exact hpb1
      have hraw : v.raw = node.raw := compute_node_raw hn hc
      have hself : ∀ j ∈ node.raw.inputs, j ≠ i := fun j hj he =>
        hpb1' j hj (he ▸ List.mem_cons_self ..)
      have hfix : compute_node (ns.set i v) i = .ok v :=
        compute_node_fixpoint hn hc hself
      have hilt : i < ns.length := (idx_lt_length (idx_ok_of_getElem hn)).1
      have hvset : (ns.set i v)[i]? = some v := List.getElem?_set_eq_of_lt v hilt
      have hni' : ns'[i]? = some v := by
        rw [pass_getElem_not_mem h hnotin, hvset]
      have hpredv : ∀ j ∈ v.raw.inputs, ns'[j]? = (ns.set i v)[j]? := by
        intro j hj
        rw [hraw] at hj
        have hjni : j ∉ rest := fun hm => hpb1' j hj (List.mem_cons_of_mem i hm)
        exact pass_getElem_not_mem h hjni
      have hstep : compute_node ns' i = .ok v := by
        rw [compute_node_congr ns' (ns.set i v) i v hni' hvset hpredv]
        exact hfix
      rw [forward_shape_and_quantize_pass, hstep]
      show forward_shape_and_quantize_pass (ns'.set i v) rest = .ok ns'
      rw [set_self_of_getElem ns' i v hni']
      exact ih (ns.set i v) h hndr
        (PredsBefore_congr rest (fun j => (inputs_of_set hn hraw j).symm) hpbr)

def C8ns : List OnnxNode := [inputNode 7 (.fin 256) [4], freshReLU [0]]

def C8out : List OnnxNode :=
  [inputNode 7 (.fin 256) [4],
   { raw := rawStub "Clip" [0], opkind := .ReLU, output_max := .fin 256,
     min_advice_cols := 4, in_scale := 7, out_scale := 0, constant_value := none,
     input_shapes := some [some [4]], output_shapes := some [some [4]],
     in_dims := some [4], out_dims := some [4], layer_hyperparams := none }]

/-- Witness for C8 on a concrete Input → ReLU graph: the second run over the
finalized list reproduces it unchanged. -/
theorem C8_pass_idempotent_witness :
    forward_shape_and_quantize_pass C8out [0, 1] = .ok C8out :=
  C8_pass_idempotent [0, 1] C8ns C8out (by decide) (by decide) (by decide)

end EzklOnnx
